import Mathlib

/-!
Verification of the ESRGAN repository (src/srgan.py, src/util.py) against its
natural-language specification.  The Python code is shallowly embedded:

* `srgan_init` embeds `SRGAN.__init__` (srgan.py lines 35-66): the upscaling
  factor check and the derived high-resolution dimensions.  Construction is
  modelled as `Except`: an error means the constructor raised and no object
  (no partial state) was handed to the caller.
* Shape-level semantics of the Keras layers used by `SRGAN.build_generator`
  (srgan.py lines 151-212): a shape is `(height, width, channels)`; every
  layer of the generator is embedded by its effect on the shape, which is all
  the spatial-dimension claims are about.
* `load_weights` embeds `SRGAN.load_weights` (srgan.py lines 97-101).
* `scale_lr_imgs` / `unscale_lr_imgs` / `scale_hr_imgs` / `unscale_hr_imgs`
  embed the static scaling helpers of `DataLoader` (util.py lines 62-80),
  over `ℚ` (exact rational arithmetic in place of IEEE floats).
* `DataLoader`, `random_crop`, `load_img`, `load_batch` embed the data
  pipeline of util.py.  Images are grids of 8-bit RGB pixels; the global
  numpy/PIL random state is embedded as an explicit stream of naturals; the
  unbounded `while True` loop is embedded with explicit fuel, so that
  `load_batch … fuel = some r` states that the Python loop terminates with
  result `r` (within `fuel` iterations) and `none` only means the fuel ran
  out.  Exceptions swallowed by the `try/except/pass/finally` block are
  embedded as `Except` values that the loop body handles locally.
-/

namespace ESRGAN

/-- An 8-bit RGB pixel: `np.array` of an RGB PIL image stores `uint8`
red/green/blue components, embedded as a triple of naturals. -/
abbrev Pix := Nat × Nat × Nat

/-- A decoded image (`np.array(img)` for an RGB PIL image): a list of rows of
pixels.  `shape[0]` is the number of rows, `shape[1]` the row length and
`shape[2] = 3` holds by construction since pixels are RGB triples. -/
structure Img where
  px : List (List Pix)
deriving DecidableEq

/-- `shape[0]` of the numpy array: the number of rows. -/
def Img.h (i : Img) : Nat := i.px.length

/-- `shape[1]` of the numpy array: the length of the first row (`0` for an
empty image); for well-formed (rectangular) arrays every row has this
length. -/
def Img.w (i : Img) : Nat :=
  match i.px with
  | [] => 0
  | r :: _ => r.length

/-- Rectangularity of the pixel grid: numpy arrays are rectangular by
construction, so readable images satisfy this. -/
def Img.rectB (i : Img) : Bool := i.px.all (fun row => row.length == i.w)

/-- One colour component of a `uint8` array is at most 255. -/
def pixB (p : Pix) : Bool :=
  decide (p.1 ≤ 255) && decide (p.2.1 ≤ 255) && decide (p.2.2 ≤ 255)

/-- Every pixel of the image is an 8-bit RGB value; true for `np.array` of an
RGB PIL image, whose dtype is `uint8`. -/
def Img.u8 (i : Img) : Bool := i.px.all (fun row => row.all pixB)

/-- An image after colour scaling: pixel components become rationals. -/
abbrev QPix := ℚ × ℚ × ℚ

/-- A colour-scaled image (the elements of the lists `imgs_hr` / `imgs_lr`
built by `load_batch`). -/
structure QImg where
  px : List (List QPix)
deriving DecidableEq

/-- Row count of a scaled image. -/
def QImg.h (q : QImg) : Nat := q.px.length

/-- Row length of a scaled image (first row, `0` if empty). -/
def QImg.w (q : QImg) : Nat :=
  match q.px with
  | [] => 0
  | r :: _ => r.length

/-! ## Colour scaling (util.py lines 62-80) -/

/-- `DataLoader.scale_lr_imgs` (util.py line 65): `imgs / 255.`. -/
def scale_lr_imgs (x : ℚ) : ℚ := x / 255

/-- `DataLoader.unscale_lr_imgs` (util.py line 70): `imgs * 255`. -/
def unscale_lr_imgs (x : ℚ) : ℚ := x * 255

/-- `DataLoader.scale_hr_imgs` (util.py line 75): `imgs / 127.5 - 1`. -/
def scale_hr_imgs (x : ℚ) : ℚ := x / (127.5 : ℚ) - 1

/-- `DataLoader.unscale_hr_imgs` (util.py line 80): `(imgs + 1.) * 127.5`. -/
def unscale_hr_imgs (x : ℚ) : ℚ := (x + 1) * (127.5 : ℚ)

/-- Pointwise application of a scalar function to an RGB pixel (numpy
broadcasts the scaling over every component). -/
def mapPix (f : ℚ → ℚ) (p : Pix) : QPix := (f p.1, f p.2.1, f p.2.2)

/-- `scale_hr_imgs` applied to a whole `uint8` image, as numpy broadcasting
does inside `load_batch` (util.py line 156). -/
def scale_hr_img (i : Img) : QImg :=
  ⟨i.px.map (fun row => row.map (mapPix scale_hr_imgs))⟩

/-- `scale_lr_imgs` applied to a whole `uint8` image, as numpy broadcasting
does inside `load_batch` (util.py line 157). -/
def scale_lr_img (i : Img) : QImg :=
  ⟨i.px.map (fun row => row.map (mapPix scale_lr_imgs))⟩

/-! ## SRGAN construction (srgan.py lines 35-66) -/

/-- The state built by `SRGAN.__init__` that the shape claims depend on. -/
structure SRGANcfg where
  height_lr : Nat
  width_lr : Nat
  channels : Nat
  upscaling_factor : Nat
  height_hr : Nat
  width_hr : Nat
deriving DecidableEq

/-- `SRGAN.__init__` (srgan.py lines 35-66).  The constructor raises
`ValueError` when `upscaling_factor not in [2, 4, 8]`; raising from `__init__`
means the caller receives no object, embedded as `Except.error` (no partial
state reaches the caller).  On success `height_hr = int(height_lr * factor)`
and likewise for the width. -/
def srgan_init (height_lr width_lr channels upscaling_factor : Nat) :
    Except String SRGANcfg :=
  if upscaling_factor ∈ ([2, 4, 8] : List Nat) then
    Except.ok
      { height_lr := height_lr
        width_lr := width_lr
        channels := channels
        upscaling_factor := upscaling_factor
        height_hr := height_lr * upscaling_factor
        width_hr := width_lr * upscaling_factor }
  else Except.error "Upscaling factor must be either 2, 4, or 8."

/-- Whether construction succeeded (no `ValueError` raised). -/
def initOk (r : Except String SRGANcfg) : Bool :=
  match r with
  | Except.ok _ => true
  | Except.error _ => false

/-! ## Generator shape semantics (srgan.py lines 103-123 and 151-212)

Every Keras layer used by `build_generator` is embedded by its effect on the
tensor shape `(height, width, channels)` of one sample. -/

/-- Shape of one sample flowing through the generator. -/
abbrev Shape := Nat × Nat × Nat

/-- `Conv2D(filters, kernel_size=k, strides=1, padding='same')`: with unit
strides and same padding the spatial size is preserved and the channel count
becomes `filters` (the kernel size is irrelevant to the shape). -/
def conv2d_same (filters k : Nat) (s : Shape) : Shape :=
  let _ := k
  (s.1, s.2.1, filters)

/-- `BatchNormalization`: shape preserving. -/
def batchNorm (s : Shape) : Shape := s

/-- `PReLU(shared_axes=[1,2])`: shape preserving. -/
def preluShape (s : Shape) : Shape := s

/-- `Add()([x, input])`: requires equal shapes; returns that shape. -/
def addShape (a b : Shape) : Shape :=
  let _ := b
  a

/-- `SRGAN.SubpixelConv2D` (srgan.py lines 103-123): the `output_shape`
function of the Lambda layer multiplies both spatial dimensions by `scale`
and divides the channels by `scale ** 2` (`tf.depth_to_space`). -/
def subpixelShape (scale : Nat) (s : Shape) : Shape :=
  (s.1 * scale, s.2.1 * scale, s.2.2 / scale ^ 2)

/-- `residual_block` of `build_generator` (srgan.py lines 160-167) at the
shape level: conv(64) → BN → PReLU → conv(64) → BN → Add with the input. -/
def residual_blockS (s : Shape) : Shape :=
  addShape (batchNorm (conv2d_same 64 3 (preluShape (batchNorm (conv2d_same 64 3 s))))) s

/-- `upsample` of `build_generator` (srgan.py lines 169-173) at the shape
level: conv(256) then `SubpixelConv2D(scale=2)` then PReLU. -/
def upsampleS (s : Shape) : Shape :=
  preluShape (subpixelShape 2 (conv2d_same 256 3 s))

/-- How many `upsample` stages `build_generator` applies (srgan.py lines
192-197): always one, another when the factor exceeds 2, a third when it
exceeds 4. -/
def upsampleStages (upscaling_factor : Nat) : Nat :=
  1 + (if 2 < upscaling_factor then 1 else 0) + (if 4 < upscaling_factor then 1 else 0)

/-- `SRGAN.build_generator` (srgan.py lines 151-212) at the shape level:
pre residual conv(64, 9×9) and PReLU, `nblocks` residual blocks, the
post-residual conv/BN/Add, the factor-dependent upsampling stages and the
final conv to `channels` channels with tanh activation. -/
def build_generatorShape (upscaling_factor nblocks channels : Nat) (input : Shape) : Shape :=
  let x_start := preluShape (conv2d_same 64 9 input)
  let r := residual_blockS^[nblocks] x_start
  let x := addShape (batchNorm (conv2d_same 64 3 r)) x_start
  let x := upsampleS x
  let x := if 2 < upscaling_factor then upsampleS x else x
  let x := if 4 < upscaling_factor then upsampleS x else x
  conv2d_same channels 9 x

/-! ## Weight loading (srgan.py lines 97-101) -/

/-- The learned parameter sets of the two networks, abstracted as flat lists
of rationals. -/
structure GanWeights where
  generator : List ℚ
  discriminator : List ℚ
deriving DecidableEq

/-- `SRGAN.load_weights` (srgan.py lines 97-101): each network's weights are
loaded only when the corresponding argument is present (`None`, the default,
is falsy and skips the load). -/
def load_weights (s : GanWeights) (generator_weights discriminator_weights : Option (List ℚ)) :
    GanWeights :=
  let s1 :=
    match generator_weights with
    | some w => { s with generator := w }
    | none => s
  match discriminator_weights with
  | some w => { s1 with discriminator := w }
  | none => s1

/-! ## Data pipeline (util.py lines 20-176) -/

/-- The PIL resampling filters of `self.options` (util.py line 43). -/
inductive ResampleFilter
  | nearest
  | bilinear
  | bicubic
  | lanczos
deriving DecidableEq

/-- `self.options = [Image.NEAREST, Image.BILINEAR, Image.BICUBIC,
Image.LANCZOS]` (util.py line 43). -/
def options : List ResampleFilter :=
  [ResampleFilter.nearest, ResampleFilter.bilinear, ResampleFilter.bicubic,
    ResampleFilter.lanczos]

/-- One draw from the global random state, embedded as consuming the head of
an explicit stream of naturals (empty stream yields 0). -/
def draw (rng : List Nat) : Nat × List Nat :=
  match rng with
  | [] => (0, [])
  | a :: t => (a, t)

/-- `random.choice(self.options)` for one drawn natural: a uniform draw is a
uniform index into the four options, embedded as the residue mod 4. -/
def choiceFilter (r : Nat) : ResampleFilter :=
  options.getD (r % options.length) ResampleFilter.nearest

/-- The filter selection of `load_batch` (util.py line 151):
`Image.BICUBIC if bicubic else choice(self.options)`.  Note it depends only
on the `bicubic` argument and the random draw, not on `training`. -/
def methodFor (bicubic : Bool) (r : Nat) : ResampleFilter :=
  if bicubic then ResampleFilter.bicubic else choiceFilter r

/-- Pixel lookup with out-of-range default, used by the resize model. -/
def samplePix (i : Img) (r c : Nat) : Pix := (i.px.getD r []).getD c (0, 0, 0)

/-- Models `img_lr.resize((newW, newH), method)` followed by `np.array(...)`
(PIL, an external library): the result is a `newH × newW` grid of `uint8`
pixels sampled from the source.  `NEAREST` samples the top-left corner of
each destination cell; the smoothing filters (bilinear, bicubic, Lanczos)
are abstracted as sampling the centre of the cell — an abstraction of the
true convolution kernels that preserves the guaranteed output size and the
8-bit output range. -/
def resize (i : Img) (newW newH : Nat) (f : ResampleFilter) : Img :=
  ⟨(List.range newH).map (fun r =>
    (List.range newW).map (fun c =>
      match f with
      | ResampleFilter.nearest => samplePix i (r * i.h / newH) (c * i.w / newW)
      | _ => samplePix i ((2 * r + 1) * i.h / (2 * newH)) ((2 * c + 1) * i.w / (2 * newW))))⟩

/-- `DataLoader.random_crop` (util.py lines 53-60).  `np.random.randint(0,
high)` raises `ValueError` when `high ≤ 0`, i.e. when the image is smaller
than the crop in that axis (the `x` draw over the width comes first); an
`Except.error` carries the random stream as consumed so far.  A successful
crop is `img[y:y+dy, x:x+dx, :]`.  The `assert img.shape[2] == 3` always
holds here because pixels are RGB triples by construction. -/
def random_crop (img : Img) (dy dx : Nat) (rng : List Nat) :
    Except (List Nat) (Img × List Nat) :=
  if img.w < dx then Except.error rng
  else
    let p := draw rng
    let x := p.1 % (img.w - dx + 1)
    if img.h < dy then Except.error p.2
    else
      let q := draw p.2
      let y := q.1 % (img.h - dy + 1)
      Except.ok (⟨((img.px.drop y).take dy).map (fun row => (row.drop x).take dx)⟩, q.2)

/-- `img.transpose(Image.FLIP_LEFT_RIGHT)`: mirror horizontally, i.e.
reverse every row. -/
def flipLR (i : Img) : Img := ⟨i.px.map List.reverse⟩

/-- `DataLoader.load_img` (util.py lines 82-92).  A pool entry is `none`
when `Image.open`/decoding raises; otherwise the stored image is the decoded
RGB array.  In training mode one `np.random.randint(0, 8)` is drawn and the
image is mirrored when the draw exceeds 3. -/
def load_img (entry : Option Img) (training : Bool) (rng : List Nat) :
    Except Unit (Img × List Nat) :=
  match entry with
  | none => Except.error ()
  | some img =>
    if training then
      let p := draw rng
      Except.ok (if 3 < p.1 % 8 then flipLR img else img, p.2)
    else Except.ok (img, rng)

/-- The `DataLoader` state built by `__init__` (util.py lines 21-51) as far
as `load_batch` consumes it.  The candidate pool stands for
`self.img_paths`: each entry is the decoding outcome of that file (`none`
when opening or decoding the file raises). -/
structure DataLoader where
  batch_size : Nat
  height_hr : Nat
  width_hr : Nat
  scale : Nat
  crops_per_image : Nat
  pool : List (Option Img)

/-- `self.total_imgs = len(self.img_paths)` (util.py line 50). -/
def DataLoader.total_imgs (dl : DataLoader) : Nat := dl.pool.length

/-- `self.height_lr = int(height_hr / scale)` (util.py line 35): floor of
the quotient for the nonnegative arguments in use. -/
def DataLoader.height_lr (dl : DataLoader) : Nat := dl.height_hr / dl.scale

/-- `self.width_lr = int(width_hr / scale)` (util.py line 37). -/
def DataLoader.width_lr (dl : DataLoader) : Nat := dl.width_hr / dl.scale

/-- `DataLoader.__len__` (util.py lines 94-95):
`int(self.total_imgs / float(self.batch_size))`, embedded as the floor of
the exact rational quotient (int() truncates toward zero and both arguments
are nonnegative). -/
def lenDL (dl : DataLoader) : Nat :=
  ⌊(dl.total_imgs : ℚ) / (dl.batch_size : ℚ)⌋₊

/-- The cursor wrap `if cur_idx >= self.total_imgs: cur_idx = 0` (util.py
lines 114-115 and 143-144). -/
def wrapCur (total cur : Nat) : Nat := if total ≤ cur then 0 else cur

/-- The mutable state of the `while True` loop of `load_batch`: cursor,
accumulated colour-scaled crops, and the remaining random stream. -/
structure LBState where
  cur : Nat
  hr : List QImg
  lr : List QImg
  rng : List Nat

/-- Lines 150-161 of util.py for a single crop: choose the filter (a random
draw happens only when `bicubic` is false), downscale to
`(int(shape[1]/scale), int(shape[0]/scale))`, colour-scale and store the
pair. -/
def appendPair (dl : DataLoader) (bicubic : Bool) (cimg : Img) (st : LBState) : LBState :=
  let pr := if bicubic then (0, st.rng) else draw st.rng
  let method := methodFor bicubic pr.1
  let img_lr := resize cimg (cimg.w / dl.scale) (cimg.h / dl.scale) method
  { st with
    hr := st.hr ++ [scale_hr_img cimg]
    lr := st.lr ++ [scale_lr_img img_lr]
    rng := pr.2 }

/-- The `for img_hr in img_crops` loop of `load_batch` (util.py lines
139-161) with its mid-loop termination checks (lines 142-148): `expN` is
`some n` in explicit-path mode (`n = len(img_paths)`) and `none` in indexed
mode, where the cursor is re-wrapped (a no-op, the cursor was wrapped at the
top of the iteration) and the batch-size check applies. -/
def procCrops (dl : DataLoader) (expN : Option Nat) (bicubic : Bool) :
    List Img → LBState → LBState
  | [], st => st
  | cimg :: rest, st =>
    match expN with
    | none =>
      let st1 : LBState := { st with cur := wrapCur dl.total_imgs st.cur }
      if dl.batch_size ≤ st1.hr.length then st1
      else procCrops dl expN bicubic rest (appendPair dl bicubic cimg st1)
    | some n =>
      if st.hr.length = n then st
      else procCrops dl expN bicubic rest (appendPair dl bicubic cimg st)

/-- The `for i in range(self.crops_per_image)` loop building `img_crops`
(util.py lines 131-134); a failing `random_crop` aborts the whole iteration
(nothing of this image is stored), keeping the stream as consumed so far. -/
def buildCropsGo (dl : DataLoader) (img : Img) :
    Nat → List Nat → List Img → Except (List Nat) (List Img × List Nat)
  | 0, rng, acc => Except.ok (acc, rng)
  | n + 1, rng, acc =>
    match random_crop img dl.height_hr dl.width_hr rng with
    | Except.error rng1 => Except.error rng1
    | Except.ok (cr, rng1) => buildCropsGo dl img n rng1 (acc ++ [cr])

/-- `img_crops` construction (util.py lines 130-136): `crops_per_image`
random crops in training mode, the whole image otherwise. -/
def buildCrops (dl : DataLoader) (img : Img) (training : Bool) (rng : List Nat) :
    Except (List Nat) (List Img × List Nat) :=
  if training then buildCropsGo dl img dl.crops_per_image rng []
  else Except.ok ([img], rng)

/-- One iteration of the `while True` body in indexed mode (util.py lines
110-167): wrap the cursor (lines 114-115), try to load and process the
image at the cursor, swallow any exception (`except: pass`), and advance the
cursor (`finally: cur_idx += 1`). -/
def idxIter (dl : DataLoader) (training bicubic : Bool) (st : LBState) : LBState :=
  let cur := wrapCur dl.total_imgs st.cur
  match dl.pool[cur]? with
  | none => { st with cur := cur + 1 }
  | some entry =>
    match load_img entry training st.rng with
    | Except.error _ => { st with cur := cur + 1 }
    | Except.ok (img, rng1) =>
      match buildCrops dl img training rng1 with
      | Except.error rng2 => { st with cur := cur + 1, rng := rng2 }
      | Except.ok (crops, rng2) =>
        let st2 := procCrops dl none bicubic crops { st with cur := cur, rng := rng2 }
        { st2 with cur := st2.cur + 1 }

/-- One iteration of the `while True` body in explicit-path mode: the
cursor indexes `img_paths`; an out-of-range cursor raises `IndexError`,
swallowed like every other exception, and the cursor still advances. -/
def expIter (dl : DataLoader) (ps : List (Option Img)) (training bicubic : Bool)
    (st : LBState) : LBState :=
  match ps[st.cur]? with
  | none => { st with cur := st.cur + 1 }
  | some entry =>
    match load_img entry training st.rng with
    | Except.error _ => { st with cur := st.cur + 1 }
    | Except.ok (img, rng1) =>
      match buildCrops dl img training rng1 with
      | Except.error rng2 => { st with cur := st.cur + 1, rng := rng2 }
      | Except.ok (crops, rng2) =>
        let st2 := procCrops dl (some ps.length) bicubic crops { st with rng := rng2 }
        { st2 with cur := st2.cur + 1 }

/-- The `while True` loop of `load_batch` (util.py lines 110-167) with
explicit fuel: `none` means the loop has not terminated within `fuel`
iterations, `some (imgs_lr, imgs_hr)` is the returned batch.  The
top-of-loop cursor wrap precedes the break check in the source; the break
does not read the cursor and `idxIter` re-wraps it, so the behaviour is
identical. -/
def load_batch_loop (dl : DataLoader) (img_paths : Option (List (Option Img)))
    (training bicubic : Bool) : Nat → LBState → Option (List QImg × List QImg)
  | 0, _ => none
  | fuel + 1, st =>
    match img_paths with
    | none =>
      if dl.batch_size ≤ st.hr.length then some (st.lr, st.hr)
      else load_batch_loop dl img_paths training bicubic fuel (idxIter dl training bicubic st)
    | some ps =>
      if st.hr.length = ps.length then some (st.lr, st.hr)
      else load_batch_loop dl img_paths training bicubic fuel (expIter dl ps training bicubic st)

/-- `DataLoader.load_batch` (util.py lines 100-176): the cursor starts at
`idx * batch_size` when `img_paths` is falsy (None or the empty list), at 0
otherwise; then the `while True` loop runs. -/
def load_batch (dl : DataLoader) (idx : Nat) (img_paths : Option (List (Option Img)))
    (training bicubic : Bool) (rng : List Nat) (fuel : Nat) :
    Option (List QImg × List QImg) :=
  let cur0 :=
    match img_paths with
    | none => idx * dl.batch_size
    | some [] => idx * dl.batch_size
    | some (_ :: _) => 0
  load_batch_loop dl img_paths training bicubic fuel ⟨cur0, [], [], rng⟩

/-! ## The directory-walk filename filter (util.py lines 45-51) -/

/-- Occurrence of `pat` as a contiguous substring: the Python `in` operator
on strings. -/
def occursIn (pat : List Char) : List Char → Bool
  | [] => pat.isEmpty
  | c :: t => pat.isPrefixOf (c :: t) || occursIn pat t

/-- The filename filter of the directory walk in `DataLoader.__init__`
(util.py line 48): `any(filetype in f.lower() for filetype in
['jpeg', 'png', 'jpg'])` — a substring test against the lowercased filename
(`str.lower` is the identity outside cased letters; ASCII lowering via
`Char.toLower`). -/
def matchesFiletype (f : String) : Bool :=
  (["jpeg", "png", "jpg"] : List String).any
    (fun ft => occursIn ft.data (f.data.map Char.toLower))

/-- The candidate pool built by the walk of `DataLoader.__init__` (util.py
lines 46-50): the walked filenames that pass the filter, in walk order. -/
def collect_img_paths (filenames : List String) : List String :=
  filenames.filter matchesFiletype

/-- The extension of a filename: the characters after the last dot, empty
when the name has no dot.  This follows the SPEC's words («whose extension
matches»), not the code, and exists to compare the two. -/
def extOf (f : String) : List Char :=
  let r := f.data.reverse
  if r.contains '.' then (r.takeWhile (fun ch => ch ≠ '.')).reverse else []

/-- The spec's predicate: the file extension matches {jpeg, jpg, png}
case-insensitively.  Written from the spec sentence, for refutation. -/
def extMatches (f : String) : Bool :=
  (["jpeg", "png", "jpg"] : List String).any
    (fun ft => (extOf f).map Char.toLower == ft.data)

/-! ## Predicates used by the batch theorems -/

/-- A pool entry that yields crops in training mode: readable and at least
crop-sized. -/
def validB (dl : DataLoader) (e : Option Img) : Bool :=
  match e with
  | none => false
  | some i => decide (dl.height_hr ≤ i.h) && decide (dl.width_hr ≤ i.w)

/-- Readable entries decode to rectangular `uint8` numpy arrays. -/
def entryWF (e : Option Img) : Bool :=
  match e with
  | none => true
  | some i => i.rectB && i.u8

/-- Membership of a rational in `[0, 1]`. -/
def inUnit (v : ℚ) : Prop := 0 ≤ v ∧ v ≤ 1

/-- Membership of a rational in `[-1, 1]`. -/
def inSym (v : ℚ) : Prop := -1 ≤ v ∧ v ≤ 1

/-- All three components of a scaled pixel satisfy `P`. -/
def qpixIn (P : ℚ → Prop) (p : QPix) : Prop := P p.1 ∧ P p.2.1 ∧ P p.2.2

/-- Every pixel component of the scaled image satisfies `P`. -/
def QImg.range (P : ℚ → Prop) (q : QImg) : Prop :=
  ∀ row ∈ q.px, ∀ p ∈ row, qpixIn P p

/-- The pairing invariant of the stored batches: the low-resolution member
is the colour-scaled downsampling (by some filter) of the very crop whose
colour-scaled form is the high-resolution member. -/
def GoodPair (dl : DataLoader) (qh ql : QImg) : Prop :=
  ∃ cimg f, Img.h cimg = dl.height_hr ∧ Img.w cimg = dl.width_hr ∧
    Img.rectB cimg = true ∧ Img.u8 cimg = true ∧ qh = scale_hr_img cimg ∧
    ql = scale_lr_img (resize cimg (Img.w cimg / dl.scale) (Img.h cimg / dl.scale) f)

/-! ## Theorems for the simpler claims -/

theorem unscale_scale_hr (x : ℚ) : unscale_hr_imgs (scale_hr_imgs x) = x := by
  unfold scale_hr_imgs unscale_hr_imgs
  have h : (127.5 : ℚ) ≠ 0 := by norm_num
  field_simp

theorem unscale_scale_lr (x : ℚ) : unscale_lr_imgs (scale_lr_imgs x) = x := by
  unfold scale_lr_imgs unscale_lr_imgs
  field_simp

/-- C7: `unscale_hr_imgs ∘ scale_hr_imgs` and `unscale_lr_imgs ∘
scale_lr_imgs` are the identity on every rational pixel value and hence on
every pixel array (exact rational arithmetic:
`(x/127.5 - 1 + 1)*127.5 = x` and `(x/255)*255 = x`). -/
theorem scale_roundtrip (x : ℚ) (xs : List ℚ) :
    unscale_hr_imgs (scale_hr_imgs x) = x ∧
    unscale_lr_imgs (scale_lr_imgs x) = x ∧
    (xs.map scale_hr_imgs).map unscale_hr_imgs = xs ∧
    (xs.map scale_lr_imgs).map unscale_lr_imgs = xs := by
  refine ⟨unscale_scale_hr x, unscale_scale_lr x, ?_, ?_⟩ <;>
    induction xs with
    | nil => simp
    | cons a t ih => simp [unscale_scale_hr, unscale_scale_lr, ih]

/-- C9: `load_weights` loads the generator and discriminator weight sets
independently: passing only generator weights loads the generator and leaves
every discriminator parameter unchanged, and symmetrically; passing neither
changes nothing. -/
theorem load_weights_independent (s : GanWeights) (gw dw : List ℚ) :
    (load_weights s (some gw) none).generator = gw ∧
    (load_weights s (some gw) none).discriminator = s.discriminator ∧
    (load_weights s none (some dw)).discriminator = dw ∧
    (load_weights s none (some dw)).generator = s.generator ∧
    load_weights s none none = s :=
  ⟨rfl, rfl, rfl, rfl, rfl⟩

/-- C2: `SRGAN.__init__` succeeds exactly for upscaling factors 2, 4 and 8;
for every other factor it fails with the configuration `ValueError`, so the
caller receives no (partial) object. -/
theorem srgan_init_factor_check (hl wl c F : Nat) :
    ((∃ cfg, srgan_init hl wl c F = Except.ok cfg) ↔ (F = 2 ∨ F = 4 ∨ F = 8)) ∧
    ((∃ msg, srgan_init hl wl c F = Except.error msg) ↔ ¬(F = 2 ∨ F = 4 ∨ F = 8)) := by
  by_cases h : F = 2 ∨ F = 4 ∨ F = 8
  · have hm : F ∈ ([2, 4, 8] : List Nat) := by simpa using h
    simp [srgan_init, hm, h]
  · have hm : F ∉ ([2, 4, 8] : List Nat) := by simpa using h
    simp [srgan_init, hm, h]

theorem residual_blockS_iterate (n : Nat) (s : Shape) :
    residual_blockS^[n + 1] s = (s.1, s.2.1, 64) := by
  rw [Function.iterate_succ_apply, Function.iterate_fixed rfl]
  rfl

/-- C1: at the shape level, for every valid upscaling factor `F ∈ {2,4,8}`
the generator built by `build_generator` maps a 3-channel input of spatial
size `(h, w)` to a 3-channel output of spatial size exactly `(F*h, F*w)`,
using `Nat.log2 F` upsampling stages, each of which doubles both spatial
dimensions via the 256-channel convolution followed by the depth-to-space
rearrangement. -/
theorem generator_output_shape (F h w : Nat) (hF : F = 2 ∨ F = 4 ∨ F = 8) :
    build_generatorShape F 16 3 (h, w, 3) = (F * h, F * w, 3) ∧
    upsampleStages F = Nat.log2 F ∧
    upsampleS (h, w, 64) = (2 * h, 2 * w, 64) := by
  have h16 : ∀ s : Shape, residual_blockS^[16] s = (s.1, s.2.1, 64) := fun s =>
    residual_blockS_iterate 15 s
  rcases hF with rfl | rfl | rfl <;>
    refine ⟨?_, by simp [upsampleStages, Nat.log2], ?_⟩ <;>
      simp [build_generatorShape, h16, upsampleS, subpixelShape, conv2d_same,
        preluShape, batchNorm, addShape, Prod.ext_iff] <;> omega

/-- Witness for C1: at factor 4 and input size (5, 7) the generator output
size is (20, 28). -/
theorem generator_output_shape_witness :
    (4 = 2 ∨ 4 = 4 ∨ 4 = 8) ∧
    (build_generatorShape 4 16 3 (5, 7, 3) = (4 * 5, 4 * 7, 3) ∧
      upsampleStages 4 = Nat.log2 4 ∧
      upsampleS (5, 7, 64) = (2 * 5, 2 * 7, 64)) :=
  ⟨by decide, generator_output_shape 4 5 7 (by decide)⟩

/-! ## Pool filter claims (C4) -/

/-- C4 counterexample: the walk keeps `notes.png.txt` — its lowercased name
contains the substring `png` — although its extension `txt` is not one of
{jpeg, jpg, png}; so the pool is not characterised by the file extension. -/
theorem pool_not_extension_based :
    collect_img_paths ["notes.png.txt"] = ["notes.png.txt"] ∧
    extMatches "notes.png.txt" = false := by
  exact ⟨by decide, by decide⟩

/-- C4 amended: the candidate pool contains exactly the walked files whose
LOWERCASED NAME CONTAINS one of the substrings `jpeg`, `png`, `jpg`
(substring containment, not an extension check). -/
theorem pool_membership (fs : List String) (f : String) :
    f ∈ collect_img_paths fs ↔
      f ∈ fs ∧ (occursIn "jpeg".data (f.data.map Char.toLower) = true ∨
        occursIn "png".data (f.data.map Char.toLower) = true ∨
        occursIn "jpg".data (f.data.map Char.toLower) = true) := by
  simp [collect_img_paths, List.mem_filter, matchesFiletype, or_assoc]

/-! ## Filter-selection claims (C5) -/

/-- A 2×2 test image with four distinct pixel values. -/
def cexImg : Img := ⟨[[(10, 10, 10), (20, 20, 20)], [(30, 30, 30), (40, 40, 40)]]⟩

/-- A loader over one readable 2×2 image, crop size 1×1, scale 2, batch 1. -/
def cexDL : DataLoader := ⟨1, 1, 1, 2, 1, [some cexImg]⟩

/-- C5 counterexample: an evaluation load (`training=False`) with the
default `bicubic=False` draws the filter by random choice — here NEAREST —
and its low-resolution output differs from a bicubic one, refuting «during
evaluation the filter is always fixed to bicubic» (the repository itself
makes such a call: `plot_bigger_images`, util.py line 335). -/
theorem eval_filter_not_always_bicubic :
    load_batch cexDL 0 none false false [0] 3 =
      some ([scale_lr_img (resize cexImg 1 1 ResampleFilter.nearest)],
        [scale_hr_img cexImg]) ∧
    resize cexImg 1 1 ResampleFilter.nearest ≠ resize cexImg 1 1 ResampleFilter.bicubic :=
  ⟨by rfl, by decide⟩

/-- C5 amended: the downsampling filter depends only on the `bicubic`
argument, not on training versus evaluation: when `bicubic` is set it is
always BICUBIC, otherwise — in training and evaluation alike — it is the
random choice among {nearest, bilinear, bicubic, Lanczos}, each of the four
being attainable. -/
theorem method_selection (r : Nat) :
    methodFor true r = ResampleFilter.bicubic ∧
    methodFor false r = choiceFilter r ∧
    choiceFilter r ∈ options ∧
    (∀ f : ResampleFilter, ∃ k, methodFor false k = f) := by
  refine ⟨rfl, rfl, ?_, ?_⟩
  · have h4 : r % 4 = 0 ∨ r % 4 = 1 ∨ r % 4 = 2 ∨ r % 4 = 3 := by omega
    rcases h4 with h | h | h | h <;> simp [choiceFilter, options, h]
  · intro f
    cases f
    exacts [⟨0, rfl⟩, ⟨1, rfl⟩, ⟨2, rfl⟩, ⟨3, rfl⟩]

/-! ## Length and cursor-wrap claims (C6) -/

/-- C6: `__len__` is `floor(pool_size / batch_size)`; `load_batch(idx)`
starts its scan at `idx * batch_size`; the wrapped cursor is always a valid
pool index (wrapping to 0 once past the end), so the indexed-mode pool
access never raises an out-of-range error, for every index. -/
theorem len_and_wrap (dl : DataLoader) (idx cur : Nat) (training bicubic : Bool)
    (rng : List Nat) (fuel : Nat) (ht : 0 < dl.total_imgs) :
    lenDL dl = dl.total_imgs / dl.batch_size ∧
    load_batch dl idx none training bicubic rng fuel =
      load_batch_loop dl none training bicubic fuel ⟨idx * dl.batch_size, [], [], rng⟩ ∧
    wrapCur dl.total_imgs (idx * dl.batch_size) < dl.total_imgs ∧
    (dl.pool[wrapCur dl.total_imgs cur]?).isSome = true ∧
    (dl.total_imgs ≤ cur → wrapCur dl.total_imgs cur = 0) ∧
    (cur < dl.total_imgs → wrapCur dl.total_imgs cur = cur) := by
  have hwrap : ∀ c, wrapCur dl.total_imgs c < dl.total_imgs := by
    intro c
    unfold wrapCur
    split <;> omega
  refine ⟨?_, rfl, hwrap _, ?_, ?_, ?_⟩
  · unfold lenDL
    exact Nat.floor_div_eq_div dl.total_imgs dl.batch_size
  · have hlt : wrapCur dl.total_imgs cur < dl.pool.length := hwrap cur
    simp [List.getElem?_eq_getElem hlt]
  · intro h
    simp [wrapCur, h]
  · intro h
    simp [wrapCur, Nat.not_le.mpr h]

/-- Witness for C6 on a one-image pool: the length is 1 and index 7 wraps
to cursor 0. -/
theorem len_and_wrap_witness :
    0 < cexDL.total_imgs ∧
    (lenDL cexDL = cexDL.total_imgs / cexDL.batch_size ∧
      load_batch cexDL 7 none true false [] 0 =
        load_batch_loop cexDL none true false 0 ⟨7 * cexDL.batch_size, [], [], []⟩ ∧
      wrapCur cexDL.total_imgs (7 * cexDL.batch_size) < cexDL.total_imgs ∧
      (cexDL.pool[wrapCur cexDL.total_imgs 7]?).isSome = true ∧
      (cexDL.total_imgs ≤ 7 → wrapCur cexDL.total_imgs 7 = 0) ∧
      (7 < cexDL.total_imgs → wrapCur cexDL.total_imgs 7 = 7)) :=
  ⟨by decide, len_and_wrap cexDL 7 7 true false [] 0 (by decide)⟩

/-! ## Skip-and-continue claims (C8) -/

theorem flipLR_h (i : Img) : (flipLR i).h = i.h := by
  simp [flipLR, Img.h]

theorem flipLR_w (i : Img) : (flipLR i).w = i.w := by
  cases h : i.px with
  | nil => simp [flipLR, Img.w, h]
  | cons r t => simp [flipLR, Img.w, h]

theorem load_img_dims (entry : Option Img) (training : Bool) (rng : List Nat)
    (img : Img) (rng1 : List Nat)
    (h : load_img entry training rng = Except.ok (img, rng1)) :
    ∃ i0, entry = some i0 ∧ Img.h img = Img.h i0 ∧ Img.w img = Img.w i0 := by
  cases entry with
  | none => simp [load_img] at h
  | some i0 =>
    refine ⟨i0, rfl, ?_⟩
    by_cases ht : training
    · simp [load_img, ht] at h
      by_cases hf : 3 < (draw rng).1 % 8
      · simp [hf] at h
        rw [← h.1]
        exact ⟨flipLR_h i0, flipLR_w i0⟩
      · simp [hf] at h
        rw [← h.1]
        exact ⟨rfl, rfl⟩
    · simp [load_img, ht] at h
      rw [← h.1]
      exact ⟨rfl, rfl⟩

/-- C8: a per-sample failure while filling an indexed batch — an unreadable
or undecodable file (`pool` entry `none`), or an undersized image in
training mode — is recovered locally: the loop-body step leaves the
accumulated batch untouched, advances the cursor to the next candidate, and
returns normally (the embedded step is a total function; the `except: pass`
swallows the exception). -/
theorem skip_on_failure (dl : DataLoader) (st : LBState) (training bicubic : Bool)
    (hc : 0 < dl.crops_per_image)
    (hfail : dl.pool[wrapCur dl.total_imgs st.cur]? = some none ∨
      (training = true ∧ ∃ i, dl.pool[wrapCur dl.total_imgs st.cur]? = some (some i) ∧
        (Img.h i < dl.height_hr ∨ Img.w i < dl.width_hr))) :
    (idxIter dl training bicubic st).hr = st.hr ∧
    (idxIter dl training bicubic st).lr = st.lr ∧
    (idxIter dl training bicubic st).cur = wrapCur dl.total_imgs st.cur + 1 := by
  rcases hfail with h | ⟨htr, i, hacc, hsmall⟩
  · simp only [idxIter]
    rw [h]
    simp [load_img]
  · simp only [idxIter]
    rw [hacc]
    subst htr
    obtain ⟨c, hcp⟩ : ∃ c, dl.crops_per_image = c + 1 := ⟨dl.crops_per_image - 1, by omega⟩
    rcases hok : load_img (some i) true st.rng with _ | p
    · simp [load_img] at hok
    · obtain ⟨i0, hi0, hh, hw⟩ := load_img_dims _ _ _ p.1 p.2 (by simpa using hok)
      obtain rfl : i = i0 := by simpa using hi0
      have hfailcrop : ∃ bad, random_crop p.1 dl.height_hr dl.width_hr p.2 = Except.error bad := by
        unfold random_crop
        rcases hsmall with hs | hs
        · by_cases hww : Img.w p.1 < dl.width_hr
          · simp only [if_pos hww]
            exact ⟨_, rfl⟩
          · have hhh : Img.h p.1 < dl.height_hr := by rw [hh]; exact hs
            simp only [if_neg hww, if_pos hhh]
            exact ⟨_, rfl⟩
        · have hww : Img.w p.1 < dl.width_hr := by rw [hw]; exact hs
          simp only [if_pos hww]
          exact ⟨_, rfl⟩
      obtain ⟨bad, hbad⟩ := hfailcrop
      simp [hok, buildCrops, hcp, buildCropsGo, hbad]

/-- Witness for C8: a pool whose only entry is an unreadable file; the step
skips it and moves the cursor from 0 to 1. -/
theorem skip_on_failure_witness :
    (0 : Nat) < 1 ∧
    ((idxIter ⟨1, 1, 1, 1, 1, [none]⟩ true false ⟨0, [], [], []⟩).hr = [] ∧
      (idxIter ⟨1, 1, 1, 1, 1, [none]⟩ true false ⟨0, [], [], []⟩).lr = [] ∧
      (idxIter ⟨1, 1, 1, 1, 1, [none]⟩ true false ⟨0, [], [], []⟩).cur =
        wrapCur (DataLoader.total_imgs ⟨1, 1, 1, 1, 1, [none]⟩) 0 + 1) :=
  ⟨by decide, skip_on_failure ⟨1, 1, 1, 1, 1, [none]⟩ ⟨0, [], [], []⟩ true false
    (by decide) (Or.inl (by decide))⟩

/-! ## Explicit-path termination claims (C10) -/

/-- A 2×2 readable test image for the explicit-path counterexample. -/
def cexImgG : Img := ⟨[[(1, 2, 3), (4, 5, 6)], [(7, 8, 9), (10, 11, 12)]]⟩

/-- A loader with crop size 1×1 and `crops_per_image = 2`. -/
def cexDLx : DataLoader := ⟨1, 1, 1, 1, 2, []⟩

/-- An explicit path list whose first file fails to load. -/
def cexPaths : List (Option Img) := [none, some cexImgG]

/-- How many pairs the loop body at one listed file appends before the
batch-size cap: 0 when the file fails to load or, in training mode, is too
small to crop; otherwise `crops_per_image` crops in training mode and one
whole image otherwise. -/
def yieldOf (dl : DataLoader) (training : Bool) : Option Img → Nat
  | none => 0
  | some i =>
    if training then
      if dl.height_hr ≤ Img.h i ∧ dl.width_hr ≤ Img.w i then dl.crops_per_image else 0
    else 1

/-- The yield of the iteration whose cursor is `cur` (0 once the cursor has
run off the end of the list: the `IndexError` is swallowed and nothing is
appended). -/
def yieldAt (dl : DataLoader) (training : Bool) (ps : List (Option Img)) (cur : Nat) : Nat :=
  match ps[cur]? with
  | none => 0
  | some e => yieldOf dl training e

/-- The total yield still available from cursor `cur` on. -/
def sumRest (dl : DataLoader) (training : Bool) (ps : List (Option Img)) (cur : Nat) : Nat :=
  ((ps.drop cur).map (yieldOf dl training)).sum

theorem sumRest_zero_of_ge (dl : DataLoader) (training : Bool) (ps : List (Option Img))
    (cur : Nat) (h : ps.length ≤ cur) : sumRest dl training ps cur = 0 := by
  simp [sumRest, List.drop_eq_nil_of_le h]

theorem sumRest_succ (dl : DataLoader) (training : Bool) (ps : List (Option Img))
    (cur : Nat) (h : cur < ps.length) :
    sumRest dl training ps cur =
      yieldAt dl training ps cur + sumRest dl training ps (cur + 1) := by
  have hacc : ps[cur]? = some ps[cur] := List.getElem?_eq_getElem h
  simp only [sumRest, yieldAt, List.drop_eq_getElem_cons h, List.map_cons, List.sum_cons,
    hacc]

theorem random_crop_ok (img : Img) (dy dx : Nat) (rng : List Nat)
    (hdx : dx ≤ Img.w img) (hdy : dy ≤ Img.h img) :
    ∃ cr rng2, random_crop img dy dx rng = Except.ok (cr, rng2) := by
  unfold random_crop
  simp only [if_neg (by omega : ¬ Img.w img < dx), if_neg (by omega : ¬ Img.h img < dy)]
  exact ⟨_, _, rfl⟩

theorem buildCropsGo_ok (dl : DataLoader) (img : Img)
    (hdy : dl.height_hr ≤ Img.h img) (hdx : dl.width_hr ≤ Img.w img) :
    ∀ (m : Nat) (rng : List Nat) (acc : List Img),
      ∃ crops rng2, buildCropsGo dl img m rng acc = Except.ok (crops, rng2) ∧
        crops.length = acc.length + m := by
  intro m
  induction m with
  | zero => exact fun rng acc => ⟨acc, rng, rfl, by omega⟩
  | succ k ih =>
    intro rng acc
    obtain ⟨cr, rng2, hcr⟩ := random_crop_ok img dl.height_hr dl.width_hr rng hdx hdy
    obtain ⟨crops, rng3, hgo, hlen⟩ := ih rng2 (acc ++ [cr])
    refine ⟨crops, rng3, ?_, ?_⟩
    · simp only [buildCropsGo, hcr, hgo]
    · simp only [List.length_append, List.length_singleton] at hlen
      omega

theorem load_img_ok (i : Img) (training : Bool) (rng : List Nat) :
    ∃ img rng2, load_img (some i) training rng = Except.ok (img, rng2) ∧
      Img.h img = Img.h i ∧ Img.w img = Img.w i ∧ (img = i ∨ img = flipLR i) := by
  by_cases ht : training = true
  · by_cases hf : 3 < (draw rng).1 % 8
    · exact ⟨flipLR i, (draw rng).2, by simp [load_img, ht, hf], flipLR_h i, flipLR_w i,
        Or.inr rfl⟩
    · exact ⟨i, (draw rng).2, by simp [load_img, ht, hf], rfl, rfl, Or.inl rfl⟩
  · exact ⟨i, rng, by simp [load_img, ht], rfl, rfl, Or.inl rfl⟩

theorem appendPair_fields (dl : DataLoader) (bicubic : Bool) (cimg : Img) (st : LBState) :
    (appendPair dl bicubic cimg st).hr.length = st.hr.length + 1 ∧
    (appendPair dl bicubic cimg st).cur = st.cur := by
  constructor <;> simp [appendPair]

theorem procCrops_exp (dl : DataLoader) (bicubic : Bool) (n : Nat) :
    ∀ (crops : List Img) (st : LBState), st.hr.length ≤ n →
      (procCrops dl (some n) bicubic crops st).hr.length =
        min (st.hr.length + crops.length) n ∧
      (procCrops dl (some n) bicubic crops st).cur = st.cur := by
  intro crops
  induction crops with
  | nil =>
    intro st h
    constructor
    · simp only [procCrops, List.length_nil, Nat.add_zero]
      omega
    · rfl
  | cons c rest ih =>
    intro st h
    by_cases he : st.hr.length = n
    · constructor
      · simp only [procCrops, if_pos he]
        omega
      · simp only [procCrops, if_pos he]
    · obtain ⟨ha1, ha2⟩ := appendPair_fields dl bicubic c st
      obtain ⟨h1, h2⟩ := ih (appendPair dl bicubic c st) (by omega)
      constructor
      · simp only [procCrops, if_neg he, h1, ha1, List.length_cons]
        omega
      · simp only [procCrops, if_neg he, h2, ha2]

theorem expIter_step (dl : DataLoader) (ps : List (Option Img)) (training bicubic : Bool)
    (st : LBState) (hle : st.hr.length ≤ ps.length) :
    (expIter dl ps training bicubic st).cur = st.cur + 1 ∧
    (expIter dl ps training bicubic st).hr.length =
      min (st.hr.length + yieldAt dl training ps st.cur) ps.length := by
  rcases hacc : ps[st.cur]? with _ | e
  · refine ⟨by simp [expIter, hacc], ?_⟩
    simp [expIter, hacc, yieldAt]
    omega
  · cases e with
    | none =>
      refine ⟨by simp [expIter, hacc, load_img], ?_⟩
      simp [expIter, hacc, yieldAt, load_img, yieldOf]
      omega
    | some i =>
      obtain ⟨img, rng2, hok, hh, hw, _⟩ := load_img_ok i training st.rng
      by_cases ht : training = true
      · subst ht
        by_cases hbig : dl.height_hr ≤ Img.h i ∧ dl.width_hr ≤ Img.w i
        · obtain ⟨crops, rng3, hbc, hlen⟩ :=
            buildCropsGo_ok dl img (by omega) (by omega) dl.crops_per_image rng2 []
          have hbc' : buildCrops dl img true rng2 = Except.ok (crops, rng3) := by
            simpa [buildCrops] using hbc
          obtain ⟨h1, h2⟩ := procCrops_exp dl bicubic ps.length crops
            ⟨st.cur, st.hr, st.lr, rng3⟩ hle
          have hyield : yieldAt dl true ps st.cur = dl.crops_per_image := by
            simp [yieldAt, hacc, yieldOf, hbig]
          constructor
          · simp only [expIter, hacc, hok, hbc', h2]
          · simp only [expIter, hacc, hok, hbc', h1, hyield]
            simp only [List.length_nil, Nat.zero_add] at hlen
            omega
        · have hyield : yieldAt dl true ps st.cur = 0 := by
            simp [yieldAt, hacc, yieldOf, hbig]
          rcases hcp : dl.crops_per_image with _ | k
          · have hempty : buildCrops dl img true rng2 = Except.ok ([], rng2) := by
              simp [buildCrops, hcp, buildCropsGo]
            constructor
            · simp only [expIter, hacc, hok, hempty, procCrops]
            · simp only [expIter, hacc, hok, hempty, procCrops, hyield]
              omega
          · have hsmall : Img.h img < dl.height_hr ∨ Img.w img < dl.width_hr := by
              rw [hh, hw]
              omega
            have hfailcrop : ∃ bad,
                random_crop img dl.height_hr dl.width_hr rng2 = Except.error bad := by
              unfold random_crop
              rcases hsmall with hs | hs
              · by_cases hww : Img.w img < dl.width_hr
                · simp only [if_pos hww]
                  exact ⟨_, rfl⟩
                · simp only [if_neg hww, if_pos hs]
                  exact ⟨_, rfl⟩
              · simp only [if_pos hs]
                exact ⟨_, rfl⟩
            obtain ⟨bad, hbad⟩ := hfailcrop
            have hbc : buildCrops dl img true rng2 = Except.error bad := by
              simp [buildCrops, hcp, buildCropsGo, hbad]
            constructor
            · simp [expIter, hacc, hok, hbc]
            · simp [expIter, hacc, hok, hbc, hyield]
              omega
      · have ht' : training = false := by
          cases training
          · rfl
          · exact absurd rfl ht
        subst ht'
        have hbc : buildCrops dl img false rng2 = Except.ok ([img], rng2) := by
          simp [buildCrops]
        obtain ⟨h1, h2⟩ := procCrops_exp dl bicubic ps.length [img]
          ⟨st.cur, st.hr, st.lr, rng2⟩ hle
        have hyield : yieldAt dl false ps st.cur = 1 := by
          simp [yieldAt, hacc, yieldOf]
        constructor
        · simp only [expIter, hacc, hok, hbc, h2]
        · simp only [expIter, hacc, hok, hbc, h1, hyield, List.length_singleton]

theorem loop_exp_dead (dl : DataLoader) (ps : List (Option Img)) (training bicubic : Bool) :
    ∀ (fuel : Nat) (st : LBState), ps.length ≤ st.cur → st.hr.length < ps.length →
      load_batch_loop dl (some ps) training bicubic fuel st = none := by
  intro fuel
  induction fuel with
  | zero => intro st _ _; rfl
  | succ k ih =>
    intro st hcur hlen
    have hne : ¬ st.hr.length = ps.length := by omega
    have hstep : expIter dl ps training bicubic st = { st with cur := st.cur + 1 } := by
      simp [expIter, List.getElem?_eq_none hcur]
    simp only [load_batch_loop, if_neg hne, hstep]
    exact ih _ (by simp; omega) (by simpa using hlen)

theorem loop_exp_none (dl : DataLoader) (ps : List (Option Img)) (training bicubic : Bool) :
    ∀ (fuel : Nat) (st : LBState), st.hr.length + sumRest dl training ps st.cur < ps.length →
      load_batch_loop dl (some ps) training bicubic fuel st = none := by
  intro fuel
  induction fuel with
  | zero => intro st _; rfl
  | succ k ih =>
    intro st hinv
    have hlen : st.hr.length < ps.length := by omega
    have hne : ¬ st.hr.length = ps.length := by omega
    by_cases hcur : ps.length ≤ st.cur
    · exact loop_exp_dead dl ps training bicubic (k + 1) st hcur hlen
    · have hcur' : st.cur < ps.length := by omega
      obtain ⟨h1, h2⟩ := expIter_step dl ps training bicubic st (by omega)
      have hsum := sumRest_succ dl training ps st.cur hcur'
      simp only [load_batch_loop, if_neg hne]
      apply ih
      rw [h1, h2]
      omega

theorem loop_exp_some (dl : DataLoader) (ps : List (Option Img)) (training bicubic : Bool) :
    ∀ (meas : Nat) (st : LBState), meas = ps.length - st.cur →
      st.hr.length ≤ ps.length →
      ps.length ≤ st.hr.length + sumRest dl training ps st.cur →
      ∃ r, load_batch_loop dl (some ps) training bicubic (meas + 1) st = some r := by
  intro meas
  induction meas with
  | zero =>
    intro st hm hle hlo
    have hcur : ps.length ≤ st.cur := by omega
    have hsum := sumRest_zero_of_ge dl training ps st.cur hcur
    have hlen : st.hr.length = ps.length := by omega
    exact ⟨(st.lr, st.hr), by simp [load_batch_loop, hlen]⟩
  | succ k ih =>
    intro st hm hle hlo
    by_cases hlen : st.hr.length = ps.length
    · exact ⟨(st.lr, st.hr), by simp [load_batch_loop, hlen]⟩
    · have hcur : st.cur < ps.length := by
        by_contra hcur
        have := sumRest_zero_of_ge dl training ps st.cur (by omega)
        omega
      obtain ⟨h1, h2⟩ := expIter_step dl ps training bicubic st hle
      have hsum := sumRest_succ dl training ps st.cur hcur
      obtain ⟨r, hr⟩ := ih (expIter dl ps training bicubic st) (by omega) (by omega)
        (by rw [h1, h2]; omega)
      exact ⟨r, by simpa [load_batch_loop, hlen] using hr⟩

/-- C10 amended: in explicit-path mode with a non-empty list, `load_batch`
terminates if and only if the total pair yield of the listed files — each
successfully loading file contributing `crops_per_image` pairs in training
mode and 1 otherwise, failing or (in training mode) undersized files
contributing 0 — reaches `len(img_paths)`.  In particular with
`training=False` (the mode every caller uses) this is: terminates iff every
listed path loads successfully; a failing path then makes the loop run
forever, its `IndexError`s swallowed. -/
theorem explicit_mode_termination (dl : DataLoader) (ps : List (Option Img))
    (training bicubic : Bool) (rng : List Nat) (idx : Nat) (hne : ps ≠ []) :
    (∃ fuel r, load_batch dl idx (some ps) training bicubic rng fuel = some r) ↔
      ps.length ≤ (ps.map (yieldOf dl training)).sum := by
  obtain ⟨e0, ps', rfl⟩ : ∃ e0 ps', ps = e0 :: ps' := by
    cases ps with
    | nil => exact absurd rfl hne
    | cons a t => exact ⟨a, t, rfl⟩
  have hinit : ∀ fuel, load_batch dl idx (some (e0 :: ps')) training bicubic rng fuel =
      load_batch_loop dl (some (e0 :: ps')) training bicubic fuel ⟨0, [], [], rng⟩ := by
    intro fuel
    rfl
  have hsum0 : sumRest dl training (e0 :: ps') 0 = ((e0 :: ps').map (yieldOf dl training)).sum := by
    simp [sumRest]
  constructor
  · rintro ⟨fuel, r, hr⟩
    by_contra hlt
    have hlt' : (⟨0, [], [], rng⟩ : LBState).hr.length +
        sumRest dl training (e0 :: ps') (⟨0, [], [], rng⟩ : LBState).cur <
        (e0 :: ps').length := by
      simp only [List.length_nil, Nat.zero_add]
      rw [hsum0]
      omega
    rw [hinit fuel,
      loop_exp_none dl (e0 :: ps') training bicubic fuel ⟨0, [], [], rng⟩ hlt'] at hr
    exact Option.noConfusion hr
  · intro hge
    obtain ⟨r, hr⟩ := loop_exp_some dl (e0 :: ps') training bicubic
      ((e0 :: ps').length - 0) ⟨0, [], [], rng⟩ rfl (by simp) (by rw [hsum0]; simpa using hge)
    exact ⟨(e0 :: ps').length - 0 + 1, r, by rw [hinit]; exact hr⟩

/-- Witness for the amended C10 on a singleton list: with one readable
2×2 image, a non-training explicit load terminates (yield 1 ≥ length 1). -/
theorem explicit_mode_termination_witness :
    ([some cexImgG] : List (Option Img)) ≠ [] ∧
    ((∃ fuel r, load_batch cexDLx 0 (some [some cexImgG]) false false [] fuel = some r) ↔
      ([some cexImgG] : List (Option Img)).length ≤
        (([some cexImgG] : List (Option Img)).map (yieldOf cexDLx false)).sum) :=
  ⟨by simp, explicit_mode_termination cexDLx [some cexImgG] false false [] 0 (by simp)⟩

/-! ## Training-mode batch assembly (C3): crop and scaling properties -/

theorem wrapCur_idem (t c : Nat) : wrapCur t (wrapCur t c) = wrapCur t c := by
  unfold wrapCur
  split_ifs <;> omega

theorem rectB_of_rows (i : Img) (n : Nat) (hrows : ∀ row ∈ i.px, row.length = n) :
    i.rectB = true := by
  rcases hpx : i.px with _ | ⟨r, t⟩
  · simp [Img.rectB, hpx]
  · have hw : Img.w i = n := by
      simp [Img.w, hpx, hrows r (by rw [hpx]; exact List.mem_cons_self r t)]
    simp only [Img.rectB, List.all_eq_true, beq_iff_eq]
    intro row hrow
    rw [hrows row hrow, hw]

theorem w_of_rows (i : Img) (n : Nat) (hrows : ∀ row ∈ i.px, row.length = n)
    (hpos : 0 < Img.h i) : Img.w i = n := by
  rcases hpx : i.px with _ | ⟨r, t⟩
  · rw [Img.h, hpx] at hpos
    simp at hpos
  · simp [Img.w, hpx, hrows r (by rw [hpx]; exact List.mem_cons_self r t)]

theorem scale_hr_mem (n : Nat) (h : n ≤ 255) : inSym (scale_hr_imgs n) := by
  have h255 : (n : ℚ) ≤ 255 := by exact_mod_cast h
  have h0 : (0 : ℚ) ≤ (n : ℚ) := Nat.cast_nonneg n
  have hdiv0 : (0 : ℚ) ≤ (n : ℚ) / 127.5 := by positivity
  have hdiv2 : (n : ℚ) / 127.5 ≤ 2 := by
    rw [div_le_iff₀ (by norm_num : (0 : ℚ) < 127.5)]
    linarith
  unfold inSym scale_hr_imgs
  constructor <;> linarith

theorem scale_lr_mem (n : Nat) (h : n ≤ 255) : inUnit (scale_lr_imgs n) := by
  have h255 : (n : ℚ) ≤ 255 := by exact_mod_cast h
  have h0 : (0 : ℚ) ≤ (n : ℚ) := Nat.cast_nonneg n
  have hdiv1 : (n : ℚ) / 255 ≤ 1 := by
    rw [div_le_iff₀ (by norm_num : (0 : ℚ) < 255)]
    linarith
  have hdiv0 : (0 : ℚ) ≤ (n : ℚ) / 255 := by positivity
  unfold inUnit scale_lr_imgs
  exact ⟨hdiv0, hdiv1⟩

theorem scale_hr_img_props (i : Img) (hu8 : i.u8 = true) :
    QImg.h (scale_hr_img i) = Img.h i ∧ QImg.w (scale_hr_img i) = Img.w i ∧
    QImg.range inSym (scale_hr_img i) := by
  refine ⟨by simp [scale_hr_img, QImg.h, Img.h], ?_, ?_⟩
  · rcases hpx : i.px with _ | ⟨r, t⟩
    · simp [scale_hr_img, QImg.w, Img.w, hpx]
    · simp [scale_hr_img, QImg.w, Img.w, hpx]
  · intro row hrow p hp
    simp only [scale_hr_img] at hrow
    obtain ⟨r0, hr0, rfl⟩ := List.mem_map.mp hrow
    obtain ⟨p0, hp0, rfl⟩ := List.mem_map.mp hp
    simp only [Img.u8, List.all_eq_true] at hu8
    have hpb := hu8 r0 hr0 p0 hp0
    simp only [pixB, Bool.and_eq_true, decide_eq_true_eq] at hpb
    exact ⟨scale_hr_mem p0.1 hpb.1.1, scale_hr_mem p0.2.1 hpb.1.2, scale_hr_mem p0.2.2 hpb.2⟩

theorem scale_lr_img_props (i : Img) (hu8 : i.u8 = true) :
    QImg.h (scale_lr_img i) = Img.h i ∧ QImg.w (scale_lr_img i) = Img.w i ∧
    QImg.range inUnit (scale_lr_img i) := by
  refine ⟨by simp [scale_lr_img, QImg.h, Img.h], ?_, ?_⟩
  · rcases hpx : i.px with _ | ⟨r, t⟩
    · simp [scale_lr_img, QImg.w, Img.w, hpx]
    · simp [scale_lr_img, QImg.w, Img.w, hpx]
  · intro row hrow p hp
    simp only [scale_lr_img] at hrow
    obtain ⟨r0, hr0, rfl⟩ := List.mem_map.mp hrow
    obtain ⟨p0, hp0, rfl⟩ := List.mem_map.mp hp
    simp only [Img.u8, List.all_eq_true] at hu8
    have hpb := hu8 r0 hr0 p0 hp0
    simp only [pixB, Bool.and_eq_true, decide_eq_true_eq] at hpb
    exact ⟨scale_lr_mem p0.1 hpb.1.1, scale_lr_mem p0.2.1 hpb.1.2, scale_lr_mem p0.2.2 hpb.2⟩

theorem samplePix_u8 (i : Img) (hu8 : i.u8 = true) (r c : Nat) :
    pixB (samplePix i r c) = true := by
  simp only [samplePix, List.getD_eq_getElem?_getD]
  rcases h1 : i.px[r]? with _ | row
  · simp [h1, pixB]
  · rcases h2 : row[c]? with _ | p
    · simp [h1, h2, pixB]
    · have hrow : row ∈ i.px := List.getElem?_mem h1
      have hp : p ∈ row := List.getElem?_mem h2
      simp only [Img.u8, List.all_eq_true] at hu8
      have hpb := hu8 row hrow p hp
      simp [h1, h2, hpb]

theorem resize_rows (i : Img) (newW newH : Nat) (f : ResampleFilter) :
    ∀ row ∈ (resize i newW newH f).px, row.length = newW := by
  intro row hrow
  simp only [resize] at hrow
  obtain ⟨r, _, rfl⟩ := List.mem_map.mp hrow
  simp

theorem resize_h (i : Img) (newW newH : Nat) (f : ResampleFilter) :
    Img.h (resize i newW newH f) = newH := by
  simp [resize, Img.h]

theorem resize_props (i : Img) (newW newH : Nat) (f : ResampleFilter) (hu8 : i.u8 = true) :
    Img.h (resize i newW newH f) = newH ∧
    (0 < newH → Img.w (resize i newW newH f) = newW) ∧
    (resize i newW newH f).u8 = true := by
  refine ⟨resize_h i newW newH f, ?_, ?_⟩
  · intro hpos
    refine w_of_rows _ newW (resize_rows i newW newH f) ?_
    rw [resize_h]
    exact hpos
  · simp only [Img.u8, List.all_eq_true]
    intro row hrow p hp
    simp only [resize] at hrow
    obtain ⟨r, _, rfl⟩ := List.mem_map.mp hrow
    obtain ⟨c, _, rfl⟩ := List.mem_map.mp hp
    cases f <;> exact samplePix_u8 i hu8 _ _

/-- What `random_crop` guarantees about a crop it returns: the requested
size, rectangular, 8-bit. -/
def GoodCrop (dl : DataLoader) (cr : Img) : Prop :=
  Img.h cr = dl.height_hr ∧ Img.w cr = dl.width_hr ∧ cr.rectB = true ∧ cr.u8 = true

theorem random_crop_props (img : Img) (dy dx : Nat) (rng : List Nat) (cr : Img)
    (rng2 : List Nat) (hok : random_crop img dy dx rng = Except.ok (cr, rng2))
    (hrect : img.rectB = true) (hu8 : img.u8 = true) (hdy0 : 0 < dy) :
    Img.h cr = dy ∧ Img.w cr = dx ∧ cr.rectB = true ∧ cr.u8 = true := by
  unfold random_crop at hok
  by_cases h1 : Img.w img < dx
  · simp only [if_pos h1] at hok
    cases hok
  · simp only [if_neg h1] at hok
    by_cases h2 : Img.h img < dy
    · simp only [if_pos h2] at hok
      cases hok
    · simp only [if_neg h2, Except.ok.injEq, Prod.mk.injEq] at hok
      obtain ⟨hcr, -⟩ := hok
      subst hcr
      set x := (draw rng).1 % (Img.w img - dx + 1) with hxdef
      set y := (draw (draw rng).2).1 % (Img.h img - dy + 1) with hydef
      have hx : x ≤ Img.w img - dx := by
        have := Nat.mod_lt (draw rng).1 (y := Img.w img - dx + 1) (by omega)
        omega
      have hy : y ≤ Img.h img - dy := by
        have := Nat.mod_lt (draw (draw rng).2).1 (y := Img.h img - dy + 1) (by omega)
        omega
      simp only [Img.rectB, List.all_eq_true, beq_iff_eq] at hrect
      have hrows : ∀ row ∈ (((img.px.drop y).take dy).map
          (fun row => (row.drop x).take dx)), row.length = dx := by
        intro row hrow
        obtain ⟨r, hr, rfl⟩ := List.mem_map.mp hrow
        have hrpx : r ∈ img.px := List.mem_of_mem_drop (List.mem_of_mem_take hr)
        have hrl : r.length = Img.w img := hrect r hrpx
        simp only [List.length_take, List.length_drop, hrl]
        omega
      have hh : Img.h (⟨(((img.px.drop y).take dy).map
          (fun row => (row.drop x).take dx))⟩ : Img) = dy := by
        simp only [Img.h, List.length_map, List.length_take, List.length_drop]
        have : Img.h img = img.px.length := rfl
        omega
      refine ⟨hh, ?_, rectB_of_rows _ dx hrows, ?_⟩
      · refine w_of_rows _ dx hrows ?_
        rw [hh]
        exact hdy0
      · simp only [Img.u8, List.all_eq_true]
        intro row hrow p hp
        obtain ⟨r, hr, rfl⟩ := List.mem_map.mp hrow
        have hrpx : r ∈ img.px := List.mem_of_mem_drop (List.mem_of_mem_take hr)
        have hppx : p ∈ r := List.mem_of_mem_drop (List.mem_of_mem_take hp)
        simp only [Img.u8, List.all_eq_true] at hu8
        exact hu8 r hrpx p hppx

theorem buildCropsGo_props (dl : DataLoader) (img : Img)
    (hrect : img.rectB = true) (hu8 : img.u8 = true)
    (hdy : dl.height_hr ≤ Img.h img) (hdx : dl.width_hr ≤ Img.w img)
    (hH : 0 < dl.height_hr) :
    ∀ (m : Nat) (rng : List Nat) (acc : List Img), (∀ cr ∈ acc, GoodCrop dl cr) →
      ∃ crops rng2, buildCropsGo dl img m rng acc = Except.ok (crops, rng2) ∧
        crops.length = acc.length + m ∧ ∀ cr ∈ crops, GoodCrop dl cr := by
  intro m
  induction m with
  | zero => exact fun rng acc hacc => ⟨acc, rng, rfl, by omega, hacc⟩
  | succ k ih =>
    intro rng acc hacc
    obtain ⟨cr, rng2, hcr⟩ := random_crop_ok img dl.height_hr dl.width_hr rng hdx hdy
    have hgood : GoodCrop dl cr := by
      obtain ⟨a, b, c, d⟩ := random_crop_props img dl.height_hr dl.width_hr rng cr rng2
        hcr hrect hu8 hH
      exact ⟨a, b, c, d⟩
    obtain ⟨crops, rng3, hgo, hlen, hcrops⟩ := ih rng2 (acc ++ [cr])
      (by
        intro c0 hc0
        rcases List.mem_append.mp hc0 with hc0 | hc0
        · exact hacc c0 hc0
        · rw [List.mem_singleton.mp hc0]
          exact hgood)
    refine ⟨crops, rng3, ?_, ?_, hcrops⟩
    · simp only [buildCropsGo, hcr, hgo]
    · simp only [List.length_append, List.length_singleton] at hlen
      omega

theorem flipLR_rectB (i : Img) (h : i.rectB = true) : (flipLR i).rectB = true := by
  have hw : Img.w (flipLR i) = Img.w i := flipLR_w i
  simp only [Img.rectB, List.all_eq_true, beq_iff_eq] at h ⊢
  intro row hrow
  rw [hw]
  have hrow' : row ∈ i.px.map List.reverse := hrow
  obtain ⟨r0, hr0, rfl⟩ := List.mem_map.mp hrow'
  rw [List.length_reverse]
  exact h r0 hr0

theorem flipLR_u8 (i : Img) (h : i.u8 = true) : (flipLR i).u8 = true := by
  simp only [Img.u8, List.all_eq_true] at h ⊢
  intro row hrow p hp
  have hrow' : row ∈ i.px.map List.reverse := hrow
  obtain ⟨r0, hr0, rfl⟩ := List.mem_map.mp hrow'
  exact h r0 hr0 p (List.mem_reverse.mp hp)

theorem appendPair_good (dl : DataLoader) (bicubic : Bool) (cimg : Img) (st : LBState)
    (hgood : GoodCrop dl cimg)
    (hf2 : List.Forall₂ (GoodPair dl) st.hr st.lr) :
    List.Forall₂ (GoodPair dl) (appendPair dl bicubic cimg st).hr
      (appendPair dl bicubic cimg st).lr := by
  have hpair : GoodPair dl (scale_hr_img cimg)
      (scale_lr_img (resize cimg (Img.w cimg / dl.scale) (Img.h cimg / dl.scale)
        (methodFor bicubic (if bicubic then (0, st.rng) else draw st.rng).1))) := by
    obtain ⟨ha, hb, hc, hd⟩ := hgood
    exact ⟨cimg, _, ha, hb, hc, hd, rfl, rfl⟩
  exact List.rel_append hf2 (List.Forall₂.cons hpair List.Forall₂.nil)

theorem procCrops_idx (dl : DataLoader) (bicubic : Bool) :
    ∀ (crops : List Img) (st : LBState),
      (∀ cr ∈ crops, GoodCrop dl cr) →
      List.Forall₂ (GoodPair dl) st.hr st.lr → st.hr.length ≤ dl.batch_size →
      wrapCur dl.total_imgs st.cur = st.cur →
      List.Forall₂ (GoodPair dl) (procCrops dl none bicubic crops st).hr
          (procCrops dl none bicubic crops st).lr ∧
      (procCrops dl none bicubic crops st).hr.length =
        min (st.hr.length + crops.length) dl.batch_size ∧
      (procCrops dl none bicubic crops st).cur = st.cur := by
  intro crops
  induction crops with
  | nil =>
    intro st _ hf2 hle _
    exact ⟨hf2, by simp only [procCrops, List.length_nil, Nat.add_zero]; omega, rfl⟩
  | cons c rest ih =>
    intro st hgood hf2 hle hcur
    have hst1 : ({ st with cur := wrapCur dl.total_imgs st.cur } : LBState) = st := by
      rw [hcur]
    by_cases hdone : dl.batch_size ≤ st.hr.length
    · have hstop : procCrops dl none bicubic (c :: rest) st = st := by
        simp only [procCrops, hst1, if_pos hdone]
      rw [hstop]
      exact ⟨hf2, by simp [List.length_cons]; omega, rfl⟩
    · have hstep : procCrops dl none bicubic (c :: rest) st =
          procCrops dl none bicubic rest (appendPair dl bicubic c st) := by
        simp only [procCrops, hst1, if_neg hdone]
      rw [hstep]
      have hlen1 : (appendPair dl bicubic c st).hr.length = st.hr.length + 1 :=
        (appendPair_fields dl bicubic c st).1
      have hcur1 : (appendPair dl bicubic c st).cur = st.cur :=
        (appendPair_fields dl bicubic c st).2
      obtain ⟨ih1, ih2, ih3⟩ := ih (appendPair dl bicubic c st)
        (fun cr hcr => hgood cr (List.mem_cons_of_mem c hcr))
        (appendPair_good dl bicubic c st (hgood c (List.mem_cons_self c rest)) hf2)
        (by omega) (by rw [hcur1, hcur])
      refine ⟨ih1, ?_, by rw [ih3, hcur1]⟩
      rw [ih2, hlen1, List.length_cons]
      omega

/-- The number of pairs the training-mode indexed iteration at wrapped
cursor `q` appends before the batch cap: `crops_per_image` when the entry is
readable and crop-sized, 0 otherwise. -/
def idxYield (dl : DataLoader) (q : Nat) : Nat :=
  match dl.pool[q]? with
  | none => 0
  | some none => 0
  | some (some i) =>
    if dl.height_hr ≤ Img.h i ∧ dl.width_hr ≤ Img.w i then dl.crops_per_image else 0

theorem idxIter_step (dl : DataLoader) (bicubic : Bool) (st : LBState)
    (hwf : ∀ e ∈ dl.pool, entryWF e = true) (hH : 0 < dl.height_hr)
    (hf2 : List.Forall₂ (GoodPair dl) st.hr st.lr)
    (hlen : st.hr.length ≤ dl.batch_size) :
    List.Forall₂ (GoodPair dl) (idxIter dl true bicubic st).hr
        (idxIter dl true bicubic st).lr ∧
    (idxIter dl true bicubic st).cur = wrapCur dl.total_imgs st.cur + 1 ∧
    (idxIter dl true bicubic st).hr.length =
      min (st.hr.length + idxYield dl (wrapCur dl.total_imgs st.cur)) dl.batch_size := by
  rcases hacc : dl.pool[wrapCur dl.total_imgs st.cur]? with _ | e
  · refine ⟨?_, ?_, ?_⟩
    · simp only [idxIter, hacc]
      exact hf2
    · simp [idxIter, hacc]
    · simp only [idxIter, hacc, idxYield]
      omega
  · cases e with
    | none =>
      refine ⟨?_, ?_, ?_⟩
      · simp only [idxIter, hacc, load_img]
        exact hf2
      · simp [idxIter, hacc, load_img]
      · simp only [idxIter, hacc, idxYield, load_img]
        omega
    | some i =>
      have hewf : entryWF (some i) = true := hwf (some i) (List.getElem?_mem hacc)
      simp only [entryWF, Bool.and_eq_true] at hewf
      obtain ⟨hrect, hu8⟩ := hewf
      obtain ⟨img, rng2, hok, hh, hw, hflip⟩ := load_img_ok i true st.rng
      have hirect : img.rectB = true := by
        rcases hflip with rfl | rfl
        · exact hrect
        · exact flipLR_rectB i hrect
      have hiu8 : img.u8 = true := by
        rcases hflip with rfl | rfl
        · exact hu8
        · exact flipLR_u8 i hu8
      by_cases hbig : dl.height_hr ≤ Img.h i ∧ dl.width_hr ≤ Img.w i
      · obtain ⟨crops, rng3, hbc, hclen, hcgood⟩ :=
          buildCropsGo_props dl img hirect hiu8 (by omega) (by omega) hH
            dl.crops_per_image rng2 [] (by intro cr hcr; cases hcr)
        have hbc' : buildCrops dl img true rng2 = Except.ok (crops, rng3) := by
          simpa [buildCrops] using hbc
        have hyield : idxYield dl (wrapCur dl.total_imgs st.cur) = dl.crops_per_image := by
          simp [idxYield, hacc, hbig]
        obtain ⟨p1, p2, p3⟩ := procCrops_idx dl bicubic crops
          ⟨wrapCur dl.total_imgs st.cur, st.hr, st.lr, rng3⟩ hcgood hf2 hlen
          (wrapCur_idem dl.total_imgs st.cur)
        simp only [List.length_nil, Nat.zero_add] at hclen
        refine ⟨?_, ?_, ?_⟩
        · simp only [idxIter, hacc, hok, hbc']
          exact p1
        · simp only [idxIter, hacc, hok, hbc', p3]
        · simp only [idxIter, hacc, hok, hbc', p2, hyield, hclen]
      · have hyield : idxYield dl (wrapCur dl.total_imgs st.cur) = 0 := by
          simp [idxYield, hacc, hbig]
        rcases hcp : dl.crops_per_image with _ | k
        · have hempty : buildCrops dl img true rng2 = Except.ok ([], rng2) := by
            simp [buildCrops, hcp, buildCropsGo]
          refine ⟨?_, ?_, ?_⟩
          · simp only [idxIter, hacc, hok, hempty, procCrops]
            exact hf2
          · simp only [idxIter, hacc, hok, hempty, procCrops]
          · simp only [idxIter, hacc, hok, hempty, procCrops, hyield]
            omega
        · have hsmall : Img.h img < dl.height_hr ∨ Img.w img < dl.width_hr := by
            rw [hh, hw]
            omega
          have hfailcrop : ∃ bad,
              random_crop img dl.height_hr dl.width_hr rng2 = Except.error bad := by
            unfold random_crop
            rcases hsmall with hs | hs
            · by_cases hww : Img.w img < dl.width_hr
              · simp only [if_pos hww]
                exact ⟨_, rfl⟩
              · simp only [if_neg hww, if_pos hs]
                exact ⟨_, rfl⟩
            · simp only [if_pos hs]
              exact ⟨_, rfl⟩
          obtain ⟨bad, hbad⟩ := hfailcrop
          have hbc : buildCrops dl img true rng2 = Except.error bad := by
            simp [buildCrops, hcp, buildCropsGo, hbad]
          refine ⟨?_, ?_, ?_⟩
          · simp only [idxIter, hacc, hok, hbc]
            exact hf2
          · simp only [idxIter, hacc, hok, hbc]
          · simp only [idxIter, hacc, hok, hbc, hyield]
            omega

/-- Number of loop iterations from wrapped cursor `p` until the wrapping
scan reaches index `j`. -/
def stepsTo (total j p : Nat) : Nat := if p ≤ j then j - p else total + j - p

theorem stepsTo_le (total j p : Nat) (hj : j < total) (hp : p < total) :
    stepsTo total j p ≤ total := by
  unfold stepsTo
  split <;> omega

theorem stepsTo_decr (total j p : Nat) (hj : j < total) (hp : p < total) (hne : p ≠ j) :
    stepsTo total j (wrapCur total (p + 1)) < stepsTo total j p := by
  unfold stepsTo wrapCur
  split_ifs <;> omega

theorem loop_idx_some (dl : DataLoader) (bicubic : Bool) (j : Nat)
    (hwf : ∀ e ∈ dl.pool, entryWF e = true)
    (hH : 0 < dl.height_hr) (hj : j < dl.total_imgs)
    (hjv : idxYield dl j = dl.crops_per_image) (hc : 0 < dl.crops_per_image) :
    ∀ (fuel : Nat) (st : LBState),
      List.Forall₂ (GoodPair dl) st.hr st.lr → st.hr.length ≤ dl.batch_size →
      (dl.batch_size - st.hr.length) * (dl.total_imgs + 1) +
        stepsTo dl.total_imgs j (wrapCur dl.total_imgs st.cur) < fuel →
      ∃ lrs hrs, load_batch_loop dl none true bicubic fuel st = some (lrs, hrs) ∧
        List.Forall₂ (GoodPair dl) hrs lrs ∧ hrs.length = dl.batch_size := by
  intro fuel
  induction fuel with
  | zero =>
    intro st _ _ hm
    omega
  | succ k ih =>
    intro st hf2 hle hm
    by_cases hdone : dl.batch_size ≤ st.hr.length
    · refine ⟨st.lr, st.hr, ?_, hf2, by omega⟩
      simp [load_batch_loop, hdone]
    · have htot : 0 < dl.total_imgs := by omega
      have hq : wrapCur dl.total_imgs st.cur < dl.total_imgs := by
        unfold wrapCur
        split <;> omega
      obtain ⟨s1, s2, s3⟩ := idxIter_step dl bicubic st hwf hH hf2 hle
      have hle' : (idxIter dl true bicubic st).hr.length ≤ dl.batch_size := by
        rw [s3]
        omega
      have hq' : wrapCur dl.total_imgs (idxIter dl true bicubic st).cur < dl.total_imgs := by
        unfold wrapCur
        split <;> omega
      have hsteps' :
          stepsTo dl.total_imgs j (wrapCur dl.total_imgs (idxIter dl true bicubic st).cur) ≤
            dl.total_imgs := stepsTo_le _ _ _ hj hq'
      have hmain : (dl.batch_size - (idxIter dl true bicubic st).hr.length) *
            (dl.total_imgs + 1) +
            stepsTo dl.total_imgs j
              (wrapCur dl.total_imgs (idxIter dl true bicubic st).cur) < k := by
        by_cases hy : idxYield dl (wrapCur dl.total_imgs st.cur) = 0
        · have hlen' : (idxIter dl true bicubic st).hr.length = st.hr.length := by
            rw [s3, hy]
            omega
          have hqj : wrapCur dl.total_imgs st.cur ≠ j := by
            intro hqj
            rw [hqj, hjv] at hy
            omega
          have hd := stepsTo_decr dl.total_imgs j (wrapCur dl.total_imgs st.cur) hj hq hqj
          rw [hlen', s2]
          omega
        · have hlen' : st.hr.length + 1 ≤ (idxIter dl true bicubic st).hr.length := by
            rw [s3]
            omega
          have hmul : (dl.batch_size - (idxIter dl true bicubic st).hr.length) *
                (dl.total_imgs + 1) + (dl.total_imgs + 1) ≤
              (dl.batch_size - st.hr.length) * (dl.total_imgs + 1) := by
            have h1 : dl.batch_size - (idxIter dl true bicubic st).hr.length + 1 ≤
                dl.batch_size - st.hr.length := by omega
            calc (dl.batch_size - (idxIter dl true bicubic st).hr.length) *
                  (dl.total_imgs + 1) + (dl.total_imgs + 1)
                = (dl.batch_size - (idxIter dl true bicubic st).hr.length + 1) *
                  (dl.total_imgs + 1) := by ring
              _ ≤ (dl.batch_size - st.hr.length) * (dl.total_imgs + 1) :=
                  Nat.mul_le_mul_right _ h1
          omega
      obtain ⟨lrs, hrs, hloop, hgood, hlenB⟩ := ih (idxIter dl true bicubic st) s1 hle' hmain
      refine ⟨lrs, hrs, ?_, hgood, hlenB⟩
      simp only [load_batch_loop, if_neg hdone]
      exact hloop

theorem forall₂_left_mem {R : QImg → QImg → Prop} :
    ∀ {l1 l2 : List QImg}, List.Forall₂ R l1 l2 → ∀ a ∈ l1, ∃ b, R a b := by
  intro l1 l2 h
  induction h with
  | nil =>
    intro a ha
    cases ha
  | cons hab _ ih =>
    intro a ha
    rcases List.mem_cons.mp ha with rfl | ha
    · exact ⟨_, hab⟩
    · exact ih a ha

theorem forall₂_right_mem {R : QImg → QImg → Prop} :
    ∀ {l1 l2 : List QImg}, List.Forall₂ R l1 l2 → ∀ b ∈ l2, ∃ a, R a b := by
  intro l1 l2 h
  induction h with
  | nil =>
    intro b hb
    cases hb
  | cons hab _ ih =>
    intro b hb
    rcases List.mem_cons.mp hb with rfl | hb
    · exact ⟨_, hab⟩
    · exact ih b hb

theorem GoodPair_hr_props (dl : DataLoader) (qh ql : QImg) (h : GoodPair dl qh ql) :
    QImg.h qh = dl.height_hr ∧ QImg.w qh = dl.width_hr ∧ QImg.range inSym qh := by
  obtain ⟨c, f, hh, hw, hrect, hu8, rfl, rfl⟩ := h
  obtain ⟨a, b, r⟩ := scale_hr_img_props c hu8
  exact ⟨by rw [a, hh], by rw [b, hw], r⟩

theorem GoodPair_lr_props (dl : DataLoader) (hs0 : 0 < dl.scale)
    (hsc : dl.scale ≤ dl.height_hr) (qh ql : QImg) (h : GoodPair dl qh ql) :
    QImg.h ql = dl.height_hr / dl.scale ∧ QImg.w ql = dl.width_hr / dl.scale ∧
    QImg.range inUnit ql := by
  obtain ⟨c, f, hh, hw, hrect, hu8, rfl, rfl⟩ := h
  obtain ⟨rh, rw', ru8⟩ := resize_props c (Img.w c / dl.scale) (Img.h c / dl.scale) f hu8
  have hpos : 0 < Img.h c / dl.scale := by
    rw [hh]
    exact Nat.div_pos hsc hs0
  obtain ⟨sh, sw, sr⟩ := scale_lr_img_props _ ru8
  refine ⟨?_, ?_, sr⟩
  · rw [sh, rh, hh]
  · rw [sw, rw' hpos, hw]

/-- C3: in training mode, whenever the candidate pool holds at least
`batch_size` valid images (readable 8-bit arrays at least crop-sized) the
indexed `load_batch` call terminates and returns exactly `batch_size`
paired crops: every stored high-resolution crop has the configured
`(height_hr, width_hr)` with values in `[-1, 1]`, every paired
low-resolution crop has `(height_hr/scale, width_hr/scale)` with values in
`[0, 1]`, and each low-resolution member is the colour-scaled downsampling
of precisely its high-resolution counterpart. -/
theorem training_batch_correct (dl : DataLoader) (idx : Nat) (rng : List Nat)
    (bicubic : Bool)
    (hc : 0 < dl.crops_per_image) (hH : 0 < dl.height_hr)
    (hs0 : 0 < dl.scale) (hsc : dl.scale ≤ dl.height_hr)
    (hwf : ∀ e ∈ dl.pool, entryWF e = true)
    (hB : dl.batch_size ≤ (dl.pool.filter (validB dl)).length) :
    ∃ fuel lrs hrs, load_batch dl idx none true bicubic rng fuel = some (lrs, hrs) ∧
      hrs.length = dl.batch_size ∧ lrs.length = dl.batch_size ∧
      List.Forall₂ (GoodPair dl) hrs lrs ∧
      (∀ q ∈ hrs, QImg.h q = dl.height_hr ∧ QImg.w q = dl.width_hr ∧ QImg.range inSym q) ∧
      (∀ q ∈ lrs, QImg.h q = dl.height_hr / dl.scale ∧
        QImg.w q = dl.width_hr / dl.scale ∧ QImg.range inUnit q) := by
  rcases Nat.eq_zero_or_pos dl.batch_size with hB0 | hBpos
  · refine ⟨1, [], [], ?_, by simpa using hB0.symm, by simpa using hB0.symm,
      List.Forall₂.nil, by simp, by simp⟩
    show load_batch_loop dl none true bicubic 1 ⟨idx * dl.batch_size, [], [], rng⟩ =
      some ([], [])
    simp [load_batch_loop, hB0]
  · obtain ⟨e, he⟩ : ∃ e, e ∈ dl.pool.filter (validB dl) := by
      refine List.exists_mem_of_ne_nil _ ?_
      intro hnil
      rw [hnil] at hB
      simp at hB
      omega
    obtain ⟨hepool, heval⟩ := List.mem_filter.mp he
    obtain ⟨j, hjlt, hje⟩ := List.mem_iff_getElem.mp hepool
    have hjacc : dl.pool[j]? = some e := by
      rw [List.getElem?_eq_getElem hjlt, hje]
    obtain ⟨i, rfl⟩ : ∃ i, e = some i := by
      cases e with
      | none => simp [validB] at heval
      | some i => exact ⟨i, rfl⟩
    simp only [validB, Bool.and_eq_true, decide_eq_true_eq] at heval
    have hjv : idxYield dl j = dl.crops_per_image := by
      simp [idxYield, hjacc, heval.1, heval.2]
    have hjtot : j < dl.total_imgs := hjlt
    obtain ⟨lrs, hrs, hloop, hgood, hlenB⟩ := loop_idx_some dl bicubic j hwf hH hjtot hjv hc
      (dl.batch_size * (dl.total_imgs + 1) + dl.total_imgs + 1)
      ⟨idx * dl.batch_size, [], [], rng⟩ List.Forall₂.nil (by simp)
      (by
        have hq0 : wrapCur dl.total_imgs (idx * dl.batch_size) < dl.total_imgs := by
          unfold wrapCur
          split <;> omega
        have hst := stepsTo_le dl.total_imgs j
          (wrapCur dl.total_imgs (idx * dl.batch_size)) hjtot hq0
        show (dl.batch_size - ([] : List QImg).length) * (dl.total_imgs + 1) +
            stepsTo dl.total_imgs j (wrapCur dl.total_imgs (idx * dl.batch_size)) <
            dl.batch_size * (dl.total_imgs + 1) + dl.total_imgs + 1
        simp only [List.length_nil, Nat.sub_zero]
        omega)
    refine ⟨dl.batch_size * (dl.total_imgs + 1) + dl.total_imgs + 1, lrs, hrs, hloop,
      hlenB, ?_, hgood, ?_, ?_⟩
    · rw [← List.Forall₂.length_eq hgood, hlenB]
    · intro q hq
      obtain ⟨b, hR⟩ := forall₂_left_mem hgood q hq
      exact GoodPair_hr_props dl q b hR
    · intro q hq
      obtain ⟨a, hR⟩ := forall₂_right_mem hgood q hq
      exact GoodPair_lr_props dl hs0 hsc a q hR

/-- A loader with batch 1, crop 1×1, scale 1, one readable 2×2 image. -/
def cexDLt : DataLoader := ⟨1, 1, 1, 1, 1, [some cexImg]⟩

/-- Witness for C3 on a one-image pool: one valid image suffices for a
batch of one 1×1 crop. -/
theorem training_batch_correct_witness :
    (0 < cexDLt.crops_per_image ∧ 0 < cexDLt.height_hr ∧
      0 < cexDLt.scale ∧ cexDLt.scale ≤ cexDLt.height_hr ∧
      (∀ e ∈ cexDLt.pool, entryWF e = true) ∧
      cexDLt.batch_size ≤ (cexDLt.pool.filter (validB cexDLt)).length) ∧
    (∃ fuel lrs hrs, load_batch cexDLt 0 none true false [] fuel = some (lrs, hrs) ∧
      hrs.length = cexDLt.batch_size ∧ lrs.length = cexDLt.batch_size ∧
      List.Forall₂ (GoodPair cexDLt) hrs lrs ∧
      (∀ q ∈ hrs, QImg.h q = cexDLt.height_hr ∧ QImg.w q = cexDLt.width_hr ∧
        QImg.range inSym q) ∧
      (∀ q ∈ lrs, QImg.h q = cexDLt.height_hr / cexDLt.scale ∧
        QImg.w q = cexDLt.width_hr / cexDLt.scale ∧ QImg.range inUnit q)) :=
  ⟨⟨by decide, by decide, by decide, by decide, by decide, by decide⟩,
    training_batch_correct cexDLt 0 [] false (by decide) (by decide) (by decide)
      (by decide) (by decide) (by decide)⟩

/-- C10 counterexample: in explicit-path mode with `training=True` and
`crops_per_image = 2` the call terminates although the first listed path
fails to load — the second image contributes two crops, reaching
`len(img_paths)`; so «terminates only if every listed path loads» is false
as stated. -/
theorem explicit_terminates_despite_failure :
    (load_batch cexDLx 0 (some cexPaths) true true [0, 0, 0, 0, 0, 0] 3).isSome = true ∧
    cexPaths[0]? = some none :=
  ⟨by rfl, by rfl⟩

end ESRGAN
